import Mathlib

set_option maxRecDepth 100000

/-!
Shallow embedding of `internal/crawl/crawl.go` (package `crawl`).

Bytes are modelled as `List Nat` (each element one octet).  Go strings are
Lean `String`s; `strBytes` is the UTF-8 encoding used wherever the Go code
converts a string to `[]byte`.  The HTTP transport is modelled as an oracle
`net : String → Nat → NetOutcome` giving, per URL and per attempt index, the
outcome of the corresponding `hc.Do` round trip.  Logging (`c.lo`) has no
observable effect on the data flow and is not modelled.
-/

/-- Errors produced by the crawl package.  Each constructor corresponds to one
`error` value constructed (or propagated) in `crawl.go`; the payloads carry the
data interpolated into the Go error message. -/
inductive Err where
  /-- `http.NewRequest` failed. -/
  | reqError : Err
  /-- `c.hc.Do(req)` failed (DNS, connect, timeout, ...). -/
  | doError : Err
  /-- `fmt.Errorf("%s returned %d", rURL, r.StatusCode)` for a non-200 status. -/
  | statusError (url : String) (status : Nat) : Err
  /-- `io.ReadAll` on the limited body reader failed. -/
  | readError : Err
  /-- `fmt.Errorf("error parsing JSON body: %v", err)`. -/
  | decodeError (msg : String) : Err
  /-- an error returned by the injected schema validator `c.sc.Validate`. -/
  | schemaError (msg : String) : Err
  /-- `errors.New("too many lines in the .well-known list")`. -/
  | tooManyLines : Err
  /-- `fmt.Errorf("manifest URL %s was not found in the .well-known list", manifestURL)`. -/
  | notFound (manifestURL : String) : Err
deriving DecidableEq, Repr

/-- The Go error message rendered by each `Err`, as `err.Error()` would show it. -/
def Err.message : Err → String
  | .reqError => "request construction failed"
  | .doError => "request round trip failed"
  | .statusError url status => url ++ " returned " ++ toString status
  | .readError => "body read failed"
  | .decodeError msg => "error parsing JSON body: " ++ msg
  | .schemaError msg => msg
  | .tooManyLines => "too many lines in the .well-known list"
  | .notFound manifestURL =>
      "manifest URL " ++ manifestURL ++ " was not found in the .well-known list"

/-- Outcome of one HTTP round trip attempted by `doReq`, as decided by the
network/transport: request construction may fail, `hc.Do` may fail, or a
response arrives with a status code, a full body, and a flag telling whether
reading the body stream succeeds. -/
inductive NetOutcome where
  | reqError : NetOutcome
  | doError : NetOutcome
  | response (status : Nat) (body : List Nat) (readOk : Bool) : NetOutcome
deriving DecidableEq, Repr

/-- UTF-8 encoding of one character (the bytes Go's `[]byte(string)` yields). -/
def utf8Bytes (c : Char) : List Nat :=
  let n := c.toNat
  if n < 0x80 then [n]
  else if n < 0x800 then
    [0xC0 ||| (n >>> 6), 0x80 ||| (n &&& 0x3F)]
  else if n < 0x10000 then
    [0xE0 ||| (n >>> 12), 0x80 ||| ((n >>> 6) &&& 0x3F), 0x80 ||| (n &&& 0x3F)]
  else
    [0xF0 ||| (n >>> 18), 0x80 ||| ((n >>> 12) &&& 0x3F),
     0x80 ||| ((n >>> 6) &&& 0x3F), 0x80 ||| (n &&& 0x3F)]

/-- The bytes `[]byte(s)` of a Go string `s`: its UTF-8 encoding. -/
def strBytes (s : String) : List Nat :=
  s.toList.flatMap utf8Bytes

/-- The raw query component `url.Parse` extracts from a URL: the bytes after
the first `?` (byte 63).  Fragments are not modelled; the URLs handled here
carry none. -/
def rawQueryOf (rURL : String) : List Nat :=
  match (strBytes rURL).dropWhile (fun b => b ≠ 63) with
  | [] => []
  | _ :: rest => rest

/-- Configuration `Opt` from `crawl.go`.  `userAgent`, `maxHostConns` and
`reqTimeout` only configure the HTTP client/transport, which the network
oracle abstracts; they are carried for fidelity. -/
structure Opt where
  userAgent : String
  maxHostConns : Int
  reqTimeout : Int
  attempts : Int
  maxBytes : Int
deriving Repr

/-- The request `doReq` hands to `c.hc.Do`: the URL it was called with and the
raw query string actually set on the parsed request URL. -/
structure SentReq where
  url : String
  rawQuery : List Nat
deriving DecidableEq, Repr

/-- The `(respBody, retry, retErr)` triple returned by `doReq`, plus the
request that was sent (`none` when `http.NewRequest` failed, so no request
went out). -/
structure DoReqOut where
  body : Option (List Nat)
  retry : Bool
  err : Option Err
  sent : Option SentReq
deriving DecidableEq, Repr

/-- Model of `doReq` from `crawl.go`, for one network outcome `o`:
request construction failure is retriable; for GET/DELETE the parsed URL's
`RawQuery` is overwritten with `string(reqBody)` (the empty string when
`reqBody` is nil); a transport failure is retriable; a non-200 status is a
terminal error naming the URL and status; on 200 the body is read through
`io.LimitReader(r.Body, MaxBytes)`, a read failure being retriable. -/
def doReq (maxBytes : Int) (method rURL : String) (reqBody : Option (List Nat))
    (o : NetOutcome) : DoReqOut :=
  match o with
  | .reqError => ⟨none, true, some .reqError, none⟩
  | .doError =>
      let sent : SentReq :=
        ⟨rURL, if method = "GET" ∨ method = "DELETE" then reqBody.getD []
               else rawQueryOf rURL⟩
      ⟨none, true, some .doError, some sent⟩
  | .response status body readOk =>
      let sent : SentReq :=
        ⟨rURL, if method = "GET" ∨ method = "DELETE" then reqBody.getD []
               else rawQueryOf rURL⟩
      if status ≠ 200 then
        ⟨none, false, some (.statusError rURL status), some sent⟩
      else if readOk then
        ⟨some (body.take maxBytes.toNat), false, none, some sent⟩
      else
        ⟨none, true, some .readError, some sent⟩

/-- Result of `fetch`: the body and error it returns, together with the number
of `doReq` attempts that were made and the requests sent (observables used to
state retry/ordering properties). -/
structure FetchResult where
  body : Option (List Nat)
  err : Option Err
  attempts : Nat
  reqs : List SentReq
deriving DecidableEq, Repr

/-- The retry loop of `fetch`: `for n := 0; n < Attempts; n++ { ... }`, with
`fuel` the number of remaining iterations, `idx` the current attempt index and
`st` the `(body, retry, err)` state left by the previous iteration.  The loop
breaks when `err == nil || !retry`.  Returns the final state, the number of
attempts made, and the requests sent. -/
def fetchLoop (maxBytes : Int) (u : String) (net : Nat → NetOutcome) :
    Nat → Nat → DoReqOut → DoReqOut × Nat × List SentReq
  | 0, _, st => (st, 0, [])
  | fuel + 1, idx, _ =>
      let st := doReq maxBytes "GET" u none (net idx)
      if st.err = none ∨ st.retry = false then
        (st, 1, st.sent.toList)
      else
        let r := fetchLoop maxBytes u net fuel (idx + 1) st
        (r.1, r.2.1 + 1, st.sent.toList ++ r.2.2)

/-- Model of `fetch` from `crawl.go`: up to `Attempts` sequential GET attempts against
`u` (none at all when `Attempts ≤ 0`, in which case the zero-valued
`body, err = nil, nil` pair is returned).  On a final error the body is
dropped; otherwise the last attempt's body is returned. -/
def fetch (opt : Opt) (net : Nat → NetOutcome) (u : String) : FetchResult :=
  let r := fetchLoop opt.maxBytes u net opt.attempts.toNat 0 ⟨none, false, none, none⟩
  match r.1.err with
  | some e => ⟨none, some e, r.2.1, r.2.2⟩
  | none => ⟨r.1.body, none, r.2.1, r.2.2⟩

/-- A network outcome the retry loop treats as retriable: a failed request
construction, a failed round trip, or a 200 response whose body read fails. -/
def isTransient : NetOutcome → Bool
  | .reqError => true
  | .doError => true
  | .response status _ readOk => status = 200 && !readOk

/-- A network outcome yielding a successful attempt: status 200 with a
readable body. -/
def isSuccess : NetOutcome → Bool
  | .response status _ readOk => status = 200 && readOk
  | _ => false

example :
    fetch ⟨"ua", 2, 5, 3, 100⟩ (fun _ => .response 200 (strBytes "hello") true) "https://x" =
      ⟨some (strBytes "hello"), none, 1, [⟨"https://x", []⟩]⟩ := by rfl

example :
    fetch ⟨"ua", 2, 5, 3, 100⟩ (fun _ => .response 404 [] true) "https://x" =
      ⟨none, some (.statusError "https://x" 404), 1, [⟨"https://x", []⟩]⟩ := by rfl

example :
    fetch ⟨"ua", 2, 5, 0, 100⟩ (fun _ => .doError) "https://x" =
      ⟨none, none, 0, []⟩ := by rfl

example :
    fetch ⟨"ua", 2, 5, 2, 100⟩ (fun _ => .doError) "https://x" =
      ⟨none, some .doError, 2, [⟨"https://x", []⟩, ⟨"https://x", []⟩]⟩ := by rfl

example : (fetch ⟨"ua", 2, 5, 1, 3⟩
    (fun _ => .response 200 (strBytes "abcdef") true) "https://x").body =
    some (strBytes "abc") := by rfl

/-- Modelled from the spec: `v1.URL` (the `internal/schemas/v1` package is
missing from the given sources) — a URL reference carrying the URL string
itself and an optional `WellKnown` pointer (the absolute URL of a disclosure
list); empty `WellKnown` exempts the URL from provenance checking.  (The
`internal/schemas/v1` package is not part of the given sources.) -/
structure URL where
  url : String
  wellKnown : String
deriving DecidableEq, Repr

/-- Modelled from the spec: `v1.Entity` (missing from the given sources) —
the publishing organization's record,
carrying its webpage URL reference. -/
structure Entity where
  webpageURL : URL
deriving DecidableEq, Repr

/-- Modelled from the spec: `v1.Project` (missing from the given sources) —
one project record with a webpage
URL reference and a repository URL reference (Go field `RepositoryUrl`). -/
structure Project where
  webpageURL : URL
  repositoryUrl : URL
deriving DecidableEq, Repr

/-- Modelled from the spec: `v1.Manifest` (missing from the given sources) —
the decoded document with its
source `url` and raw `body` (both stamped post-decode by the pipeline, not
part of the wire format), the `entity` record and the ordered `projects`
list.  Fields of the wire format that no claim touches are omitted. -/
structure Manifest where
  url : String
  body : List Nat
  entity : Entity
  projects : List Project
deriving DecidableEq, Repr

/-- The zero value of `v1.Manifest` returned by `FetchManifest` on a fetch
error. -/
def emptyManifest : Manifest :=
  ⟨"", [], ⟨⟨"", ""⟩⟩, []⟩

/-- The `Crawl` struct: its configuration, the injected schema validator
(`sc Schema`; `Modelled from the spec:` consumed only through
`Validate(manifest) -> (manifest, error)`), the JSON decoder
(`Modelled from the spec:` `v1.Manifest`'s `UnmarshalJSON`, external to the
given sources; it returns the — possibly partially filled — manifest value
and an optional error message), and the network oracle standing for the
pooled HTTP client `hc`.  The logger is dropped (observability only). -/
structure Crawl where
  opt : Opt
  validate : Manifest → Manifest × Option Err
  decode : List Nat → Manifest × Option String
  net : String → Nat → NetOutcome

/-- Model of `bytes.Split(body, []byte("\n"))`: split a byte slice around each
newline byte (10).  Like Go's `bytes.Split`, the result is never empty and an
empty input yields one empty subslice. -/
def splitNL : List Nat → List (List Nat)
  | [] => [[]]
  | b :: rest =>
      if b = 10 then [] :: splitNL rest
      else
        match splitNL rest with
        | l :: ls => (b :: l) :: ls
        | [] => [[b]]

/-- Inverse of `splitNL` used to build concrete disclosure-list bodies:
join lines with a newline byte between consecutive lines. -/
def joinNL : List (List Nat) → List Nat
  | [] => []
  | [l] => l
  | l :: rest => l ++ 10 :: joinNL rest

/-- The scanning loop of `CheckProvenance` over the split lines, `n` being the
loop index: a line equal (byte-for-byte) to `[]byte(manifestURL)` means
success (`none`); otherwise, once `n > 100`, the too-many-lines error;
exhausting the lines yields the not-found error naming the manifest URL. -/
def scanWK (manifestURL : String) : List (List Nat) → Nat → Option Err
  | [], _ => some (.notFound manifestURL)
  | b :: rest, n =>
      if strBytes manifestURL = b then none
      else if n > 100 then some .tooManyLines
      else scanWK manifestURL rest (n + 1)

/-- Number of lines the scanning loop of `CheckProvenance` examines (i.e. the
number of `bytes.Equal` comparisons it performs) before returning. -/
def scanCount (manifestURL : String) : List (List Nat) → Nat → Nat
  | [], _ => 0
  | b :: rest, n =>
      if strBytes manifestURL = b then 1
      else if n > 100 then 1
      else 1 + scanCount manifestURL rest (n + 1)

/-- Model of `CheckProvenance` from `crawl.go`: trivial success on empty `WellKnown`;
otherwise fetch the disclosure list and scan its newline-split lines for
`manifestURL`.  The second component records the URLs for which `c.fetch` was
invoked (the observable used to state "no network call" properties). -/
def CheckProvenance (c : Crawl) (u : URL) (manifestURL : String) :
    Option Err × List String :=
  if u.wellKnown = "" then (none, [])
  else
    let r := fetch c.opt (c.net u.wellKnown) u.wellKnown
    match r.err with
    | some e => (some e, [u.wellKnown])
    | none => (scanWK manifestURL (splitNL (r.body.getD [])) 0, [u.wellKnown])

/-- The `for _, o := range m.Projects` loop of `ParseManifest`: check each
project's webpage URL then repository URL, returning the first error.  Also
returns the list of URL references passed to `CheckProvenance` and the
disclosure-list URLs fetched, in order. -/
def checkProjects (c : Crawl) (manifestURL : String) :
    List Project → Option Err × List URL × List String
  | [] => (none, [], [])
  | p :: rest =>
      let r1 := CheckProvenance c p.webpageURL manifestURL
      match r1.1 with
      | some e => (some e, [p.webpageURL], r1.2)
      | none =>
          let r2 := CheckProvenance c p.repositoryUrl manifestURL
          match r2.1 with
          | some e => (some e, [p.webpageURL, p.repositoryUrl], r1.2 ++ r2.2)
          | none =>
              let r := checkProjects c manifestURL rest
              (r.1, p.webpageURL :: p.repositoryUrl :: r.2.1, r1.2 ++ r2.2 ++ r.2.2)

/-- The provenance phase of `ParseManifest`: the entity's webpage URL first,
then the projects in order. -/
def provPhase (c : Crawl) (manifestURL : String) (m : Manifest) :
    Option Err × List URL × List String :=
  let r0 := CheckProvenance c m.entity.webpageURL manifestURL
  match r0.1 with
  | some e => (some e, [m.entity.webpageURL], r0.2)
  | none =>
      let r := checkProjects c manifestURL m.projects
      (r.1, m.entity.webpageURL :: r.2.1, r0.2 ++ r.2.2)

/-- The URL references of a manifest in document order: the entity's webpage
URL first, then for each project (in listed order) its webpage URL followed by
its repository URL.  This is exactly the order in which `ParseManifest`
invokes `CheckProvenance`. -/
def docOrder (m : Manifest) : List URL :=
  m.entity.webpageURL :: m.projects.flatMap (fun p => [p.webpageURL, p.repositoryUrl])

/-- Sequential provenance checking of a list of URL references, returning the
first error together with the references actually checked and the
disclosure-list URLs actually fetched.  `provPhase` coincides with `runChecks`
on `docOrder` (proved below); this form makes the short-circuit structure
explicit. -/
def runChecks (c : Crawl) (manifestURL : String) :
    List URL → Option Err × List URL × List String
  | [] => (none, [], [])
  | u :: rest =>
      let r := CheckProvenance c u manifestURL
      match r.1 with
      | some e => (some e, [u], r.2)
      | none =>
          let r' := runChecks c manifestURL rest
          (r'.1, u :: r'.2.1, r.2 ++ r'.2.2)

/-- Result of `ParseManifest`: the `(Manifest, error)` pair it returns, plus
observables: the manifest value passed to the schema validator (`none` when
decoding failed and the validator was never called), the URL references passed
to `CheckProvenance`, and the disclosure-list URLs fetched, each in invocation
order. -/
structure ParseResult where
  manifest : Manifest
  err : Option Err
  validatorArg : Option Manifest
  checked : List URL
  fetched : List String

/-- Model of `ParseManifest` from `crawl.go`: decode the body (a decode error is
wrapped and returned with the partially-filled manifest), stamp `URL` and
`Body`, run the validator (propagating its manifest and error verbatim on
failure, adopting its manifest on success), then, when `checkProvenance` is
set, establish provenance of the entity and project URLs in document order,
returning the first failure. -/
def ParseManifest (c : Crawl) (b : List Nat) (manifestURL : String)
    (checkProvenance : Bool) : ParseResult :=
  let d := c.decode b
  match d.2 with
  | some msg => ⟨d.1, some (.decodeError msg), none, [], []⟩
  | none =>
      let m1 : Manifest := { d.1 with url := manifestURL, body := b }
      let v := c.validate m1
      match v.2 with
      | some e => ⟨v.1, some e, some m1, [], []⟩
      | none =>
          if checkProvenance then
            let p := provPhase c manifestURL v.1
            ⟨v.1, p.1, some m1, p.2.1, p.2.2⟩
          else ⟨v.1, none, some m1, [], []⟩

/-- Model of `FetchManifest` from `crawl.go`: fetch the manifest URL, returning the
zero-valued manifest on a fetch error, and otherwise parse the fetched bytes
with provenance checking enabled. -/
def FetchManifest (c : Crawl) (manifestURL : String) : Manifest × Option Err :=
  let r := fetch c.opt (c.net manifestURL) manifestURL
  match r.err with
  | some e => (emptyManifest, some e)
  | none =>
      let pr := ParseManifest c (r.body.getD []) manifestURL true
      (pr.manifest, pr.err)

example : splitNL (strBytes "a\nbc\n") = [strBytes "a", strBytes "bc", []] := by rfl
example : splitNL [] = [[]] := by rfl
example : scanWK "https://m" (splitNL (strBytes "x\nhttps://m\ny")) 0 = none := by rfl
example : scanWK "https://m" (splitNL (strBytes "x\ny")) 0 =
    some (.notFound "https://m") := by rfl
example : scanWK "https://m" (List.replicate 102 (strBytes "x")) 0 =
    some .tooManyLines := by decide
example : scanCount "https://m" (List.replicate 102 (strBytes "x")) 0 = 102 := by decide
example : scanWK "https://m" (List.replicate 101 (strBytes "x")) 0 =
    some (.notFound "https://m") := by decide

/-- If the first line equal to `[]byte(manifestURL)` sits at index `i` and the
loop reaches it before the cap (`i + n ≤ 101`), the scan succeeds. -/
theorem scanWK_first_match (murl : String) :
    ∀ (i : Nat) (lines : List (List Nat)) (n : Nat),
      lines[i]? = some (strBytes murl) →
      (∀ j, j < i → lines[j]? ≠ some (strBytes murl)) →
      i + n ≤ 101 →
      scanWK murl lines n = none := by
  intro i
  induction i with
  | zero =>
      intro lines n h0 _ _
      cases lines with
      | nil => simp at h0
      | cons b rest =>
          simp at h0
          simp only [scanWK]
          rw [if_pos h0.symm]
  | succ i ih =>
      intro lines n h0 hj hn
      cases lines with
      | nil => simp at h0
      | cons b rest =>
          have hb : b ≠ strBytes murl := by
            have h := hj 0 (Nat.succ_pos i)
            simpa using h
          simp only [scanWK]
          rw [if_neg (fun h => hb h.symm), if_neg (by omega)]
          refine ih rest (n + 1) (by simpa using h0) ?_ (by omega)
          intro j hji
          have h := hj (j + 1) (by omega)
          simpa using h

/-- If no line matches and the whole list fits under the cap
(`length + n ≤ 101`), the scan exhausts the list and reports not-found,
naming the manifest URL. -/
theorem scanWK_exhaust (murl : String) :
    ∀ (lines : List (List Nat)) (n : Nat),
      (∀ l ∈ lines, l ≠ strBytes murl) →
      lines.length + n ≤ 101 →
      scanWK murl lines n = some (.notFound murl) := by
  intro lines
  induction lines with
  | nil => intro n _ _; simp [scanWK]
  | cons b rest ih =>
      intro n hm hlen
      have hb : b ≠ strBytes murl := hm b (by simp)
      have hlen' : rest.length + (n + 1) ≤ 101 := by
        simp only [List.length_cons] at hlen; omega
      simp only [scanWK]
      rw [if_neg (fun h => hb h.symm), if_neg (by omega)]
      exact ih (n + 1) (fun l hl => hm l (by simp [hl])) hlen'

/-- If none of the first `102 - n` lines matches and at least that many lines
remain, the scan fails with the too-many-lines error, after examining exactly
`102 - n` further lines. -/
theorem scanWK_cap (murl : String) :
    ∀ (lines : List (List Nat)) (n : Nat),
      n ≤ 101 →
      (∀ l ∈ lines.take (102 - n), l ≠ strBytes murl) →
      102 - n ≤ lines.length →
      scanWK murl lines n = some .tooManyLines ∧
      scanCount murl lines n = 102 - n := by
  intro lines
  induction lines with
  | nil => intro n hn _ hlen; simp at hlen; omega
  | cons b rest ih =>
      intro n hn hm hlen
      have he : 102 - n = (101 - n) + 1 := by omega
      rw [he, List.take_succ_cons] at hm
      have hb : b ≠ strBytes murl := hm b (by simp)
      by_cases hcap : n > 100
      · constructor
        · simp only [scanWK]
          rw [if_neg (fun h => hb h.symm), if_pos hcap]
        · simp only [scanCount]
          rw [if_neg (fun h => hb h.symm), if_pos hcap]
          omega
      · have hm' : ∀ l ∈ rest.take (102 - (n + 1)), l ≠ strBytes murl := by
          intro l hl
          refine hm l (List.mem_cons_of_mem _ ?_)
          rwa [show 102 - (n + 1) = 101 - n from by omega] at hl
        have hlen' : 102 - (n + 1) ≤ rest.length := by
          simp only [List.length_cons] at hlen; omega
        obtain ⟨hA, hB⟩ := ih (n + 1) (by omega) hm' hlen'
        constructor
        · simp only [scanWK]
          rw [if_neg (fun h => hb h.symm), if_neg hcap]
          exact hA
        · simp only [scanCount]
          rw [if_neg (fun h => hb h.symm), if_neg hcap, hB]
          omega

/-- The scan never examines more than `102 - n` further lines. -/
theorem scanCount_le_cap (murl : String) :
    ∀ (lines : List (List Nat)) (n : Nat), n ≤ 101 →
      scanCount murl lines n ≤ 102 - n := by
  intro lines
  induction lines with
  | nil => intro n _; simp [scanCount]
  | cons b rest ih =>
      intro n hn
      simp only [scanCount]
      by_cases hb : strBytes murl = b
      · rw [if_pos hb]; omega
      · rw [if_neg hb]
        by_cases hcap : n > 100
        · rw [if_pos hcap]; omega
        · rw [if_neg hcap]
          have h := ih (n + 1) (by omega)
          omega

/-- A retriable outcome leaves the loop state with `retry = true` and a
non-nil error, so the retry loop continues. -/
theorem doReq_transient (mb : Int) (m u : String) (rb : Option (List Nat))
    (o : NetOutcome) (h : isTransient o = true) :
    (doReq mb m u rb o).retry = true ∧ (doReq mb m u rb o).err ≠ none := by
  cases o with
  | reqError => simp [doReq]
  | doError => simp [doReq]
  | response status body readOk =>
      simp only [isTransient, Bool.and_eq_true, decide_eq_true_eq,
        Bool.not_eq_eq_eq_not, Bool.not_true] at h
      obtain ⟨h200, hro⟩ := h
      subst h200; subst hro
      simp [doReq]

/-- A successful outcome (status 200, readable body) yields a nil error, a
non-retriable state, and the body truncated to `MaxBytes`. -/
theorem doReq_success (mb : Int) (m u : String) (rb : Option (List Nat))
    (o : NetOutcome) (h : isSuccess o = true) :
    ∃ body, o = .response 200 body true ∧
      (doReq mb m u rb o).err = none ∧ (doReq mb m u rb o).retry = false ∧
      (doReq mb m u rb o).body = some (body.take mb.toNat) := by
  cases o with
  | reqError => simp [isSuccess] at h
  | doError => simp [isSuccess] at h
  | response status body readOk =>
      simp only [isSuccess, Bool.and_eq_true, decide_eq_true_eq] at h
      obtain ⟨h200, hro⟩ := h
      subst h200; subst hro
      refine ⟨body, rfl, ?_, ?_, ?_⟩ <;> simp [doReq]

/-- One-step unfolding of the retry loop when the current attempt breaks it
(nil error or non-retriable error). -/
theorem fetchLoop_break (mb : Int) (u : String) (net : Nat → NetOutcome)
    (fuel idx : Nat) (st0 : DoReqOut)
    (hcond : (doReq mb "GET" u none (net idx)).err = none ∨
      (doReq mb "GET" u none (net idx)).retry = false) :
    fetchLoop mb u net (fuel + 1) idx st0 =
      (doReq mb "GET" u none (net idx), 1,
        (doReq mb "GET" u none (net idx)).sent.toList) := by
  simp only [fetchLoop, if_pos hcond]

/-- One-step unfolding of the retry loop when the current attempt fails with a
retriable error, so the loop goes on. -/
theorem fetchLoop_step (mb : Int) (u : String) (net : Nat → NetOutcome)
    (fuel idx : Nat) (st0 : DoReqOut)
    (hcond : ¬ ((doReq mb "GET" u none (net idx)).err = none ∨
      (doReq mb "GET" u none (net idx)).retry = false)) :
    fetchLoop mb u net (fuel + 1) idx st0 =
      ((fetchLoop mb u net fuel (idx + 1) (doReq mb "GET" u none (net idx))).1,
       (fetchLoop mb u net fuel (idx + 1) (doReq mb "GET" u none (net idx))).2.1 + 1,
       (doReq mb "GET" u none (net idx)).sent.toList ++
         (fetchLoop mb u net fuel (idx + 1) (doReq mb "GET" u none (net idx))).2.2) := by
  simp only [fetchLoop, if_neg hcond]

/-- If every one of the `fuel` remaining attempts is retriable, the loop runs
them all and ends in the state of the last attempt. -/
theorem fetchLoop_all_transient (mb : Int) (u : String) (net : Nat → NetOutcome) :
    ∀ (fuel idx : Nat) (st0 : DoReqOut), 1 ≤ fuel →
      (∀ j, j < fuel → isTransient (net (idx + j)) = true) →
      (fetchLoop mb u net fuel idx st0).1 = doReq mb "GET" u none (net (idx + fuel - 1)) ∧
      (fetchLoop mb u net fuel idx st0).2.1 = fuel := by
  intro fuel
  induction fuel with
  | zero => intro idx st0 h; omega
  | succ f ih =>
      intro idx st0 _ htr
      have h0 := doReq_transient mb "GET" u none (net idx)
        (by simpa using htr 0 (Nat.succ_pos f))
      have hcond : ¬ ((doReq mb "GET" u none (net idx)).err = none ∨
          (doReq mb "GET" u none (net idx)).retry = false) := by
        rintro (h | h)
        · exact h0.2 h
        · rw [h0.1] at h; exact Bool.noConfusion h
      cases f with
      | zero =>
          rw [fetchLoop_step mb u net 0 idx st0 hcond]
          exact ⟨rfl, rfl⟩
      | succ f' =>
          rw [fetchLoop_step mb u net (f' + 1) idx st0 hcond]
          have hrec := ih (idx + 1) (doReq mb "GET" u none (net idx))
            (Nat.succ_pos f') ?_
          · refine ⟨?_, ?_⟩
            · rw [hrec.1]
              congr 2
              omega
            · rw [hrec.2]
          · intro j hj
            have h := htr (j + 1) (by omega)
            rwa [show idx + (j + 1) = idx + 1 + j from by omega] at h

/-- If the first `N` attempts are retriable and attempt `N` succeeds, and the
loop has fuel for them, it stops right after the successful attempt. -/
theorem fetchLoop_success_at (mb : Int) (u : String) (net : Nat → NetOutcome) :
    ∀ (N fuel idx : Nat) (st0 : DoReqOut),
      (∀ j, j < N → isTransient (net (idx + j)) = true) →
      isSuccess (net (idx + N)) = true →
      N + 1 ≤ fuel →
      (fetchLoop mb u net fuel idx st0).1 = doReq mb "GET" u none (net (idx + N)) ∧
      (fetchLoop mb u net fuel idx st0).2.1 = N + 1 := by
  intro N
  induction N with
  | zero =>
      intro fuel idx st0 _ hs hf
      cases fuel with
      | zero => omega
      | succ f =>
          obtain ⟨body, _, he, _, _⟩ :=
            doReq_success mb "GET" u none (net idx) (by simpa using hs)
          rw [fetchLoop_break mb u net f idx st0 (Or.inl he)]
          exact ⟨by rw [Nat.add_zero], rfl⟩
  | succ N ih =>
      intro fuel idx st0 htr hs hf
      cases fuel with
      | zero => omega
      | succ f =>
          have h0 := doReq_transient mb "GET" u none (net idx)
            (by simpa using htr 0 (Nat.succ_pos N))
          have hcond : ¬ ((doReq mb "GET" u none (net idx)).err = none ∨
              (doReq mb "GET" u none (net idx)).retry = false) := by
            rintro (h | h)
            · exact h0.2 h
            · rw [h0.1] at h; exact Bool.noConfusion h
          rw [fetchLoop_step mb u net f idx st0 hcond]
          have hrec := ih f (idx + 1) (doReq mb "GET" u none (net idx)) ?_ ?_ (by omega)
          · refine ⟨?_, ?_⟩
            · rw [hrec.1]
              congr 2
              omega
            · rw [hrec.2]
          · intro j hj
            have h := htr (j + 1) (by omega)
            rwa [show idx + (j + 1) = idx + 1 + j from by omega] at h
          · rwa [show idx + 1 + N = idx + (N + 1) from by omega]

/-- Every request the retry loop sends goes to `u` with an empty raw query
(the GET branch of `doReq` overwrites `RawQuery` with `string(nil)`). -/
theorem fetchLoop_reqs (mb : Int) (u : String) (net : Nat → NetOutcome) :
    ∀ (fuel idx : Nat) (st0 : DoReqOut),
      ∀ r ∈ (fetchLoop mb u net fuel idx st0).2.2, r = ⟨u, []⟩ := by
  have hsent : ∀ (o : NetOutcome) (r : SentReq),
      r ∈ (doReq mb "GET" u none o).sent.toList → r = ⟨u, []⟩ := by
    intro o r hr
    cases o with
    | reqError => simp [doReq] at hr
    | doError => simp [doReq] at hr; simp [hr]
    | response status body readOk =>
        by_cases hs : status = 200
        · subst hs
          cases readOk with
          | true => simp [doReq] at hr; simp [hr]
          | false => simp [doReq] at hr; simp [hr]
        · simp [doReq, hs] at hr; simp [hr]
  intro fuel
  induction fuel with
  | zero => intro idx st0 r hr; simp [fetchLoop] at hr
  | succ f ih =>
      intro idx st0 r hr
      by_cases hcond : (doReq mb "GET" u none (net idx)).err = none ∨
          (doReq mb "GET" u none (net idx)).retry = false
      · rw [fetchLoop_break mb u net f idx st0 hcond] at hr
        exact hsent (net idx) r hr
      · rw [fetchLoop_step mb u net f idx st0 hcond] at hr
        simp only [List.mem_append] at hr
        rcases hr with hr | hr
        · exact hsent (net idx) r hr
        · exact ih (idx + 1) (doReq mb "GET" u none (net idx)) r hr

/-- The project loop of `ParseManifest` checks exactly the per-project
webpage/repository references, in order. -/
theorem checkProjects_eq (c : Crawl) (murl : String) :
    ∀ ps : List Project,
      checkProjects c murl ps =
        runChecks c murl (ps.flatMap fun p => [p.webpageURL, p.repositoryUrl]) := by
  intro ps
  induction ps with
  | nil => rfl
  | cons p rest ih =>
      simp only [List.flatMap_cons, List.cons_append, List.singleton_append]
      simp only [checkProjects, runChecks, ih]
      cases h1 : (CheckProvenance c p.webpageURL murl).1 with
      | some e => rfl
      | none =>
          cases h2 : (CheckProvenance c p.repositoryUrl murl).1 with
          | some e => rfl
          | none => simp [List.append_assoc]

/-- The provenance phase of `ParseManifest` is the sequential check of the
manifest's references in document order. -/
theorem provPhase_eq (c : Crawl) (murl : String) (m : Manifest) :
    provPhase c murl m = runChecks c murl (docOrder m) := by
  simp only [provPhase, docOrder, runChecks, checkProjects_eq]

/-- Structure of a sequential provenance run: some prefix of length `k` of the
references is checked (and only its members fetched), every check before the
`k`-th passes, an error is the `k`-th check's error, and a nil error means the
whole list was checked and passed. -/
theorem runChecks_spec (c : Crawl) (murl : String) :
    ∀ refs : List URL, ∃ k, k ≤ refs.length ∧
      (runChecks c murl refs).2.1 = refs.take k ∧
      (runChecks c murl refs).2.2 =
        (refs.take k).flatMap (fun u => (CheckProvenance c u murl).2) ∧
      (∀ j, j + 1 < k → ∀ u, refs[j]? = some u → (CheckProvenance c u murl).1 = none) ∧
      (∀ e, (runChecks c murl refs).1 = some e →
        1 ≤ k ∧ ∃ u, refs[k - 1]? = some u ∧ (CheckProvenance c u murl).1 = some e) ∧
      ((runChecks c murl refs).1 = none → k = refs.length ∧
        ∀ u ∈ refs, (CheckProvenance c u murl).1 = none) := by
  intro refs
  induction refs with
  | nil =>
      refine ⟨0, by simp, by simp [runChecks], by simp [runChecks], ?_, ?_, ?_⟩
      · intro j hj; omega
      · intro e he; simp [runChecks] at he
      · intro _; simp
  | cons u rest ih =>
      cases h1 : (CheckProvenance c u murl).1 with
      | some e =>
          have hrun : runChecks c murl (u :: rest) =
              (some e, [u], (CheckProvenance c u murl).2) := by
            simp only [runChecks, h1]
          refine ⟨1, by simp, ?_, ?_, ?_, ?_, ?_⟩
          · rw [hrun]; simp
          · rw [hrun]; simp
          · intro j hj; omega
          · intro e' he'
            rw [hrun] at he'
            simp only [Option.some_inj] at he'
            exact ⟨le_refl 1, u, by simp, by rw [h1, he']⟩
          · intro he; rw [hrun] at he; exact absurd he (by simp)
      | none =>
          obtain ⟨k, hk, hc, hf, hpass, herr, hok⟩ := ih
          have hrun : runChecks c murl (u :: rest) =
              ((runChecks c murl rest).1,
               u :: (runChecks c murl rest).2.1,
               (CheckProvenance c u murl).2 ++ (runChecks c murl rest).2.2) := by
            simp only [runChecks, h1]
          refine ⟨k + 1, by simp; omega, ?_, ?_, ?_, ?_, ?_⟩
          · rw [hrun]; simp only [List.take_succ_cons, hc]
          · rw [hrun]; simp only [List.take_succ_cons, List.flatMap_cons, hf]
          · intro j hj u' hu'
            cases j with
            | zero =>
                simp only [List.getElem?_cons_zero, Option.some_inj] at hu'
                rw [← hu']; exact h1
            | succ j' =>
                simp only [List.getElem?_cons_succ] at hu'
                exact hpass j' (by omega) u' hu'
          · intro e he
            rw [hrun] at he
            obtain ⟨hk1, u', hu', hcu'⟩ := herr e he
            refine ⟨by omega, u', ?_, hcu'⟩
            rw [show k + 1 - 1 = (k - 1) + 1 from by omega]
            simpa using hu'
          · intro he
            rw [hrun] at he
            obtain ⟨hlen, hall⟩ := hok he
            refine ⟨by simp [hlen], ?_⟩
            intro u' hu'
            rcases List.mem_cons.mp hu' with h | h
            · rw [h]; exact h1
            · exact hall u' h

/-- Unfolding `CheckProvenance` after a successful disclosure-list fetch with body `b`:
is the line scan of `b`, having fetched exactly the well-known URL. -/
theorem checkProvenance_fetch_ok (c : Crawl) (u : URL) (murl : String) (b : List Nat)
    (hw : u.wellKnown ≠ "")
    (hfe : (fetch c.opt (c.net u.wellKnown) u.wellKnown).err = none)
    (hfb : (fetch c.opt (c.net u.wellKnown) u.wellKnown).body.getD [] = b) :
    CheckProvenance c u murl = (scanWK murl (splitNL b) 0, [u.wellKnown]) := by
  simp only [CheckProvenance, if_neg hw, hfe, hfb]

/-- Unfolding `ParseManifest` after a successful decode: the decoded manifest is stamped
with the source URL and raw body, handed to the validator, and the validator's
result drives the rest. -/
theorem ParseManifest_decode_ok (c : Crawl) (b : List Nat) (murl : String)
    (cp : Bool) (m0 : Manifest) (hdec : c.decode b = (m0, none)) :
    ParseManifest c b murl cp =
      match (c.validate { m0 with url := murl, body := b }).2 with
      | some e => ⟨(c.validate { m0 with url := murl, body := b }).1, some e,
          some { m0 with url := murl, body := b }, [], []⟩
      | none =>
          if cp then
            ⟨(c.validate { m0 with url := murl, body := b }).1,
             (provPhase c murl (c.validate { m0 with url := murl, body := b }).1).1,
             some { m0 with url := murl, body := b },
             (provPhase c murl (c.validate { m0 with url := murl, body := b }).1).2.1,
             (provPhase c murl (c.validate { m0 with url := murl, body := b }).1).2.2⟩
          else ⟨(c.validate { m0 with url := murl, body := b }).1, none,
              some { m0 with url := murl, body := b }, [], []⟩ := by
  simp only [ParseManifest, hdec]

/-- A trivial decoder used in concrete scenarios. -/
def decodeTriv : List Nat → Manifest × Option String := fun _ => (emptyManifest, none)

/-- A pass-through validator used in concrete scenarios. -/
def validateTriv : Manifest → Manifest × Option Err := fun m => (m, none)

/-- A concrete configuration with 3 attempts and a 300-byte cap. -/
def optW : Opt := ⟨"portal", 2, 5, 3, 300⟩

/-- C8: for every `URLRef` whose `WellKnown` field is empty, `CheckProvenance`
returns a nil error and invokes no fetch (the list of fetched URLs is empty),
whatever the network would answer. -/
theorem checkProvenance_empty_wellknown (c : Crawl) (u : URL) (murl : String)
    (h : u.wellKnown = "") :
    CheckProvenance c u murl = (none, []) := by
  simp [CheckProvenance, h]

/-- A crawler whose network always fails; used to witness trivially passing
checks that must not touch the network. -/
def crawlNoNet : Crawl := ⟨optW, validateTriv, decodeTriv, fun _ _ => .doError⟩

theorem checkProvenance_empty_wellknown_witness :
    CheckProvenance crawlNoNet ⟨"https://site", ""⟩ "https://m" = (none, []) :=
  checkProvenance_empty_wellknown crawlNoNet ⟨"https://site", ""⟩ "https://m" rfl

/-- C4: a non-200 response on the first attempt is terminal: exactly one
attempt is made regardless of how large `Attempts` is, and the returned error
carries the URL and the status code (and renders them in its message). -/
theorem fetch_terminal_status (opt : Opt) (net : Nat → NetOutcome) (u : String)
    (status : Nat) (body : List Nat) (readOk : Bool)
    (hA : 1 ≤ opt.attempts) (h0 : net 0 = .response status body readOk)
    (hs : status ≠ 200) :
    fetch opt net u = ⟨none, some (.statusError u status), 1, [⟨u, []⟩]⟩ ∧
    (Err.statusError u status).message = u ++ " returned " ++ toString status := by
  have hd : doReq opt.maxBytes "GET" u none (net 0) =
      ⟨none, false, some (.statusError u status), some ⟨u, []⟩⟩ := by
    rw [h0]; simp [doReq, hs]
  obtain ⟨f, hf⟩ : ∃ f, opt.attempts.toNat = f + 1 :=
    ⟨opt.attempts.toNat - 1, by omega⟩
  have hloop : fetchLoop opt.maxBytes u net opt.attempts.toNat 0
      ⟨none, false, none, none⟩ =
      (⟨none, false, some (.statusError u status), some ⟨u, []⟩⟩, 1, [⟨u, []⟩]) := by
    rw [hf, fetchLoop_break opt.maxBytes u net f 0 _ (by rw [hd]; right; rfl), hd]
    rfl
  exact ⟨by simp [fetch, hloop], rfl⟩

/-- A network answering 404 on every attempt. -/
def net404 : Nat → NetOutcome := fun _ => .response 404 [] true

theorem fetch_terminal_status_witness :
    fetch optW net404 "https://x" =
      ⟨none, some (.statusError "https://x" 404), 1, [⟨"https://x", []⟩]⟩ :=
  (fetch_terminal_status optW net404 "https://x" 404 [] true (by decide) rfl
    (by decide)).1

/-- C6: a 200 response with a readable body yields, with no error, exactly the
first `MaxBytes` bytes of the body; when the body is at least `MaxBytes` long
the result has length exactly `MaxBytes`. -/
theorem fetch_size_cap (opt : Opt) (net : Nat → NetOutcome) (u : String)
    (body : List Nat)
    (hA : 1 ≤ opt.attempts) (h0 : net 0 = .response 200 body true) :
    (fetch opt net u).err = none ∧
    (fetch opt net u).body = some (body.take opt.maxBytes.toNat) ∧
    (opt.maxBytes.toNat ≤ body.length →
      ((fetch opt net u).body.getD []).length = opt.maxBytes.toNat) := by
  have hd : doReq opt.maxBytes "GET" u none (net 0) =
      ⟨some (body.take opt.maxBytes.toNat), false, none, some ⟨u, []⟩⟩ := by
    rw [h0]; simp [doReq]
  obtain ⟨f, hf⟩ : ∃ f, opt.attempts.toNat = f + 1 :=
    ⟨opt.attempts.toNat - 1, by omega⟩
  have hloop : fetchLoop opt.maxBytes u net opt.attempts.toNat 0
      ⟨none, false, none, none⟩ =
      (⟨some (body.take opt.maxBytes.toNat), false, none, some ⟨u, []⟩⟩, 1,
        [⟨u, []⟩]) := by
    rw [hf, fetchLoop_break opt.maxBytes u net f 0 _ (by rw [hd]; left; rfl), hd]
    rfl
  refine ⟨by simp [fetch, hloop], by simp [fetch, hloop], ?_⟩
  intro hle
  simp only [fetch, hloop]
  simp [List.length_take]
  omega

/-- A network answering 200 with a six-byte body. -/
def net6 : Nat → NetOutcome := fun _ => .response 200 (strBytes "abcdef") true

theorem fetch_size_cap_witness :
    (fetch ⟨"portal", 2, 5, 3, 3⟩ net6 "https://x").body = some (strBytes "abc") ∧
    ((fetch ⟨"portal", 2, 5, 3, 3⟩ net6 "https://x").body.getD []).length = 3 := by
  have h := fetch_size_cap ⟨"portal", 2, 5, 3, 3⟩ net6 "https://x"
    (strBytes "abcdef") (by decide) rfl
  exact ⟨h.2.1.trans (by decide), h.2.2 (by decide)⟩

/-- C9: with `Attempts ≤ 0` the retry loop never runs, so `fetch` returns the
zero values — nil body and nil error, zero attempts, no request sent — and
`FetchManifest` therefore goes on to parse the nil (empty) byte slice instead
of reporting a fetch failure. -/
theorem fetch_nonpositive_attempts (c : Crawl) (u murl : String)
    (hA : c.opt.attempts ≤ 0) :
    fetch c.opt (c.net u) u = ⟨none, none, 0, []⟩ ∧
    FetchManifest c murl =
      ((ParseManifest c [] murl true).manifest,
       (ParseManifest c [] murl true).err) := by
  have h0 : c.opt.attempts.toNat = 0 := by omega
  have hfet : ∀ v : String, fetch c.opt (c.net v) v = ⟨none, none, 0, []⟩ := by
    intro v; simp [fetch, h0, fetchLoop]
  exact ⟨hfet u, by simp [FetchManifest, hfet murl]⟩

/-- A crawler configured with zero attempts. -/
def crawlZero : Crawl := ⟨⟨"portal", 2, 5, 0, 300⟩, validateTriv, decodeTriv,
  fun _ _ => .doError⟩

theorem fetch_nonpositive_attempts_witness :
    fetch crawlZero.opt (crawlZero.net "https://x") "https://x" = ⟨none, none, 0, []⟩ ∧
    FetchManifest crawlZero "https://m" =
      ((ParseManifest crawlZero [] "https://m" true).manifest,
       (ParseManifest crawlZero [] "https://m" true).err) :=
  fetch_nonpositive_attempts crawlZero "https://x" "https://m" (by decide)

/-- C10: every request `fetch` sends goes to the URL it was called with and
carries an empty raw query string — `doReq` overwrites the parsed URL's query
with `string(nil)` on the GET path, so any query component of the original URL
is stripped before the request goes out. -/
theorem fetch_query_stripped (opt : Opt) (net : Nat → NetOutcome) (u : String) :
    ∀ r ∈ (fetch opt net u).reqs, r = ⟨u, []⟩ ∧ r.rawQuery = [] := by
  intro r hr
  have hreqs : (fetch opt net u).reqs =
      (fetchLoop opt.maxBytes u net opt.attempts.toNat 0
        ⟨none, false, none, none⟩).2.2 := by
    simp only [fetch]
    split <;> rfl
  rw [hreqs] at hr
  have h := fetchLoop_reqs opt.maxBytes u net opt.attempts.toNat 0
    ⟨none, false, none, none⟩ r hr
  exact ⟨h, by rw [h]⟩

/-- A network answering 200 with an empty body. -/
def netEmpty : Nat → NetOutcome := fun _ => .response 200 [] true

theorem fetch_query_stripped_witness :
    (fetch optW netEmpty "https://h/p?x=1").reqs = [⟨"https://h/p?x=1", []⟩] ∧
    rawQueryOf "https://h/p?x=1" = strBytes "x=1" ∧
    (⟨"https://h/p?x=1", []⟩ : SentReq).rawQuery = [] := by
  refine ⟨by decide, by decide, ?_⟩
  exact (fetch_query_stripped optW netEmpty "https://h/p?x=1"
    ⟨"https://h/p?x=1", []⟩ (by decide)).2

/-- C2: after a successful disclosure-list fetch, `CheckProvenance` splits the
body on newline bytes, scans the lines in order comparing each byte-for-byte
against the manifest URL: the first exact match (reached within the cap)
succeeds, and exhausting the list (within the cap) yields the not-found error
naming the manifest URL; a line differing only by a trailing space is not a
match (concrete conjunct). -/
theorem checkProvenance_exact_scan (c : Crawl) (u : URL) (murl : String)
    (b : List Nat)
    (hw : u.wellKnown ≠ "")
    (hfe : (fetch c.opt (c.net u.wellKnown) u.wellKnown).err = none)
    (hfb : (fetch c.opt (c.net u.wellKnown) u.wellKnown).body.getD [] = b) :
    (∀ i, (splitNL b)[i]? = some (strBytes murl) →
      (∀ j, j < i → (splitNL b)[j]? ≠ some (strBytes murl)) →
      i ≤ 101 →
      (CheckProvenance c u murl).1 = none) ∧
    ((∀ l ∈ splitNL b, l ≠ strBytes murl) → (splitNL b).length ≤ 101 →
      (CheckProvenance c u murl).1 = some (.notFound murl)) ∧
    (Err.notFound murl).message =
      "manifest URL " ++ murl ++ " was not found in the .well-known list" ∧
    scanWK "https://a.example/funding.json "
      (splitNL (strBytes "https://a.example/funding.json\nhttps://other")) 0 =
      some (.notFound "https://a.example/funding.json ") := by
  have hck := checkProvenance_fetch_ok c u murl b hw hfe hfb
  refine ⟨?_, ?_, rfl, by decide⟩
  · intro i hi hj hcap
    rw [hck]
    exact scanWK_first_match murl i (splitNL b) 0 hi hj (by omega)
  · intro hall hlen
    rw [hck]
    exact scanWK_exhaust murl (splitNL b) 0 hall (by omega)

/-- The two-line disclosure list of the spec's provenance examples. -/
def bodyPass : List Nat := strBytes "https://a.example/funding.json\nhttps://other"

/-- A network serving `bodyPass` for every URL. -/
def netPass : String → Nat → NetOutcome := fun _ _ => .response 200 bodyPass true

/-- A crawler wired to `netPass`. -/
def crawlPass : Crawl := ⟨optW, validateTriv, decodeTriv, netPass⟩

/-- The URL reference whose disclosure list is `bodyPass`. -/
def urefPass : URL :=
  ⟨"https://a.example", "https://a.example/.well-known/funding-manifest-urls"⟩

theorem checkProvenance_exact_scan_witness :
    (CheckProvenance crawlPass urefPass "https://a.example/funding.json").1 = none ∧
    (CheckProvenance crawlPass urefPass "https://a.example/funding.json ").1 =
      some (.notFound "https://a.example/funding.json ") := by
  constructor
  · exact (checkProvenance_exact_scan crawlPass urefPass
      "https://a.example/funding.json" bodyPass (by decide) (by decide)
      (by decide)).1 0 (by decide) (fun j hj => absurd hj (Nat.not_lt_zero j))
      (by decide)
  · exact (checkProvenance_exact_scan crawlPass urefPass
      "https://a.example/funding.json " bodyPass (by decide) (by decide)
      (by decide)).2.1 (by decide) (by decide)

/-- C1 (amended): after a successful disclosure-list fetch, if the first 102
split lines all differ from the manifest URL (and there are at least 102),
`CheckProvenance` fails with the too-many-lines error during the 102nd line's
iteration, having examined exactly 102 lines; the scan never examines more
than 102 lines on any body. -/
theorem checkProvenance_line_bound (c : Crawl) (u : URL) (murl : String)
    (b : List Nat)
    (hw : u.wellKnown ≠ "")
    (hfe : (fetch c.opt (c.net u.wellKnown) u.wellKnown).err = none)
    (hfb : (fetch c.opt (c.net u.wellKnown) u.wellKnown).body.getD [] = b)
    (hnm : ∀ l ∈ (splitNL b).take 102, l ≠ strBytes murl)
    (hlen : 102 ≤ (splitNL b).length) :
    (CheckProvenance c u murl).1 = some .tooManyLines ∧
    scanCount murl (splitNL b) 0 = 102 ∧
    (∀ b' : List Nat, scanCount murl (splitNL b') 0 ≤ 102) := by
  have hck := checkProvenance_fetch_ok c u murl b hw hfe hfb
  have h := scanWK_cap murl (splitNL b) 0 (by omega) (by simpa using hnm)
    (by omega)
  refine ⟨by rw [hck]; simpa using h.1, by simpa using h.2, ?_⟩
  intro b'
  have h' := scanCount_le_cap murl (splitNL b') 0 (by omega)
  omega

/-- One non-matching disclosure-list line. -/
def lineX : List Nat := strBytes "x"

/-- A disclosure-list body of 102 non-matching lines. -/
def body102 : List Nat := joinNL (List.replicate 102 lineX)

/-- A network serving `body102` for every URL. -/
def net102 : String → Nat → NetOutcome := fun _ _ => .response 200 body102 true

/-- A single-attempt crawler wired to `net102`. -/
def crawl102 : Crawl := ⟨⟨"portal", 2, 5, 1, 300⟩, validateTriv, decodeTriv, net102⟩

/-- The URL reference whose disclosure list is `body102`. -/
def uref102 : URL :=
  ⟨"https://site", "https://site/.well-known/funding-manifest-urls"⟩

/-- C1 as stated is false: on a 102-line non-matching list the scan does fail
with the too-many-lines error, but it examines 102 lines — not at most
101 — before failing (the 102nd line is compared before the `n > 100` check
fires). -/
theorem checkProvenance_line_bound_counterexample :
    (CheckProvenance crawl102 uref102 "https://m").1 = some .tooManyLines ∧
    scanCount "https://m" (splitNL body102) 0 = 102 ∧
    ¬ scanCount "https://m" (splitNL body102) 0 ≤ 101 := by
  decide

theorem checkProvenance_line_bound_witness :
    (CheckProvenance crawl102 uref102 "https://m").1 = some .tooManyLines ∧
    scanCount "https://m" (splitNL body102) 0 = 102 := by
  have h := checkProvenance_line_bound crawl102 uref102 "https://m" body102
    (by decide) (by decide) (by decide) (by decide) (by decide)
  exact ⟨h.1, h.2.1⟩

/-- C5 (scoped to `Attempts ≥ 1` as the claim is): with `N` transient
failures followed by a success, `Attempts = N + 1` makes the fetch succeed
after exactly `N + 1` sequential attempts with the final attempt's body, while
`Attempts = N` (for `N ≥ 1`) makes it fail after exactly `N` attempts,
returning the final (`N`-th) attempt's error. -/
theorem fetch_retry_bound (opt : Opt) (net : Nat → NetOutcome) (u : String)
    (N : Nat)
    (htr : ∀ n, n < N → isTransient (net n) = true)
    (hsucc : isSuccess (net N) = true) :
    (opt.attempts = (N : Int) + 1 →
      (fetch opt net u).err = none ∧ (fetch opt net u).attempts = N + 1 ∧
      (fetch opt net u).body = (doReq opt.maxBytes "GET" u none (net N)).body) ∧
    (1 ≤ N → opt.attempts = (N : Int) →
      (fetch opt net u).err = (doReq opt.maxBytes "GET" u none (net (N - 1))).err ∧
      (fetch opt net u).err ≠ none ∧
      (fetch opt net u).attempts = N) := by
  constructor
  · intro hA
    have hfuel : opt.attempts.toNat = N + 1 := by rw [hA]; omega
    obtain ⟨hst, hk⟩ := fetchLoop_success_at opt.maxBytes u net N (N + 1) 0
      ⟨none, false, none, none⟩ (by intro j hj; simpa using htr j hj)
      (by simpa using hsucc) (le_refl _)
    rw [Nat.zero_add] at hst
    obtain ⟨body, hresp, he, hrt, hb⟩ :=
      doReq_success opt.maxBytes "GET" u none (net N) (by simpa using hsucc)
    have hmain : fetch opt net u =
        ⟨(doReq opt.maxBytes "GET" u none (net N)).body, none, N + 1,
         (fetchLoop opt.maxBytes u net (N + 1) 0 ⟨none, false, none, none⟩).2.2⟩ := by
      simp only [fetch, hfuel, hst, hk, he]
    rw [hmain]
    exact ⟨rfl, rfl, rfl⟩
  · intro hN hA
    have hfuel : opt.attempts.toNat = N := by rw [hA]; omega
    obtain ⟨hst, hk⟩ := fetchLoop_all_transient opt.maxBytes u net N 0
      ⟨none, false, none, none⟩ (by omega) (by intro j hj; simpa using htr j hj)
    rw [Nat.zero_add] at hst
    have h0 := doReq_transient opt.maxBytes "GET" u none (net (N - 1))
      (htr (N - 1) (by omega))
    cases he : (doReq opt.maxBytes "GET" u none (net (N - 1))).err with
    | none => exact absurd he h0.2
    | some e =>
        have hmain : fetch opt net u = ⟨none, some e, N,
            (fetchLoop opt.maxBytes u net N 0 ⟨none, false, none, none⟩).2.2⟩ := by
          simp only [fetch, hfuel, hst, hk, he]
        refine ⟨?_, ?_, ?_⟩
        · rw [hmain]
        · rw [hmain]; simp
        · rw [hmain]

/-- A network failing transiently on the first two attempts and succeeding on
the third. -/
def netRetry : Nat → NetOutcome :=
  fun n => if n < 2 then .doError else .response 200 (strBytes "ok") true

theorem fetch_retry_bound_witness :
    ((fetch ⟨"portal", 2, 5, 3, 300⟩ netRetry "https://x").err = none ∧
     (fetch ⟨"portal", 2, 5, 3, 300⟩ netRetry "https://x").attempts = 3) ∧
    ((fetch ⟨"portal", 2, 5, 2, 300⟩ netRetry "https://x").err ≠ none ∧
     (fetch ⟨"portal", 2, 5, 2, 300⟩ netRetry "https://x").attempts = 2) := by
  have h1 := fetch_retry_bound ⟨"portal", 2, 5, 3, 300⟩ netRetry "https://x" 2
    (by decide) (by decide)
  have h2 := fetch_retry_bound ⟨"portal", 2, 5, 2, 300⟩ netRetry "https://x" 2
    (by decide) (by decide)
  exact ⟨⟨(h1.1 (by decide)).1, (h1.1 (by decide)).2.1⟩,
         ⟨(h2.2 (by decide) (by decide)).2.1, (h2.2 (by decide) (by decide)).2.2⟩⟩

/-- C7: after a successful decode, the manifest handed to the schema validator
is the decoded one with `URL` set to the source URL and `Body` set to the raw
input bytes; on validator error, the validator's manifest and error are
returned unchanged; on validator success, the validator's manifest is the one
`ParseManifest` carries forward and returns. -/
theorem parseManifest_validator_flow (c : Crawl) (b : List Nat) (murl : String)
    (cp : Bool) (m0 : Manifest) (hdec : c.decode b = (m0, none)) :
    (ParseManifest c b murl cp).validatorArg =
      some { m0 with url := murl, body := b } ∧
    (∀ v e, c.validate { m0 with url := murl, body := b } = (v, some e) →
      (ParseManifest c b murl cp).manifest = v ∧
      (ParseManifest c b murl cp).err = some e) ∧
    (∀ v, c.validate { m0 with url := murl, body := b } = (v, none) →
      (ParseManifest c b murl cp).manifest = v) := by
  rw [ParseManifest_decode_ok c b murl cp m0 hdec]
  refine ⟨?_, ?_, ?_⟩
  · cases hv : (c.validate { m0 with url := murl, body := b }).2 with
    | some e => simp [hv]
    | none => cases cp <;> simp [hv]
  · intro v e hve
    simp [hve]
  · intro v hve
    cases cp <;> simp [hve]

/-- A fixed decoded manifest used in validator-flow scenarios. -/
def mDec : Manifest := ⟨"old", [1, 2], ⟨⟨"https://e", ""⟩⟩, []⟩

/-- A validator that stamps the manifest URL field with a marker. -/
def valRename : Manifest → Manifest × Option Err :=
  fun m => ({ m with url := "validated" }, none)

/-- A crawler with the renaming validator and a decoder producing `mDec`. -/
def crawlVal : Crawl := ⟨optW, valRename, fun _ => (mDec, none), fun _ _ => .doError⟩

/-- A crawler whose validator rejects everything. -/
def crawlValErr : Crawl :=
  ⟨optW, fun _ => (emptyManifest, some (.schemaError "bad")),
   fun _ => (mDec, none), fun _ _ => .doError⟩

theorem parseManifest_validator_flow_witness :
    (ParseManifest crawlVal [9] "https://m" false).validatorArg =
      some { mDec with url := "https://m", body := [9] } ∧
    (ParseManifest crawlVal [9] "https://m" false).manifest =
      { mDec with url := "validated", body := [9] } ∧
    (ParseManifest crawlValErr [9] "https://m" false).manifest = emptyManifest ∧
    (ParseManifest crawlValErr [9] "https://m" false).err =
      some (.schemaError "bad") := by
  have h1 := parseManifest_validator_flow crawlVal [9] "https://m" false mDec rfl
  have h2 := parseManifest_validator_flow crawlValErr [9] "https://m" false mDec rfl
  refine ⟨h1.1, ?_, ?_, ?_⟩
  · exact h1.2.2 { mDec with url := "validated", body := [9] } rfl
  · exact (h2.2.1 emptyManifest (.schemaError "bad") rfl).1
  · exact (h2.2.1 emptyManifest (.schemaError "bad") rfl).2

/-- C3: when decode and validation succeed, `ParseManifest` with provenance
checking invokes `CheckProvenance` on a prefix of the document-order reference
list (entity webpage first, then each project's webpage then repository),
fetches only for that prefix, every check before the last one of the prefix
passes, a returned error is exactly the last checked reference's error, and a
nil error means every reference was checked and passed. -/
theorem parseManifest_document_order (c : Crawl) (b : List Nat) (murl : String)
    (m0 v0 : Manifest)
    (hdec : c.decode b = (m0, none))
    (hval : c.validate { m0 with url := murl, body := b } = (v0, none)) :
    ∃ k, k ≤ (docOrder v0).length ∧
      (ParseManifest c b murl true).checked = (docOrder v0).take k ∧
      (ParseManifest c b murl true).fetched =
        ((docOrder v0).take k).flatMap (fun u => (CheckProvenance c u murl).2) ∧
      (∀ j, j + 1 < k → ∀ u, (docOrder v0)[j]? = some u →
        (CheckProvenance c u murl).1 = none) ∧
      (∀ e, (ParseManifest c b murl true).err = some e →
        1 ≤ k ∧ ∃ u, (docOrder v0)[k - 1]? = some u ∧
          (CheckProvenance c u murl).1 = some e) ∧
      ((ParseManifest c b murl true).err = none → k = (docOrder v0).length ∧
        ∀ u ∈ docOrder v0, (CheckProvenance c u murl).1 = none) := by
  have hP : ParseManifest c b murl true =
      ⟨v0, (runChecks c murl (docOrder v0)).1,
       some { m0 with url := murl, body := b },
       (runChecks c murl (docOrder v0)).2.1,
       (runChecks c murl (docOrder v0)).2.2⟩ := by
    rw [ParseManifest_decode_ok c b murl true m0 hdec]
    simp [hval, provPhase_eq]
  rw [hP]
  exact runChecks_spec c murl (docOrder v0)

/-- An entity whose webpage reference will fail its provenance check. -/
def entFail : Entity := ⟨⟨"https://e", "https://e/.wk"⟩⟩

/-- First project of the short-circuit scenario. -/
def projA : Project := ⟨⟨"https://p1", "https://p1/.wk"⟩, ⟨"https://r1", "https://r1/.wk"⟩⟩

/-- Second project of the short-circuit scenario. -/
def projB : Project := ⟨⟨"https://p2", "https://p2/.wk"⟩, ⟨"https://r2", "https://r2/.wk"⟩⟩

/-- A manifest with a failing entity and two projects. -/
def mProv : Manifest := ⟨"", [], entFail, [projA, projB]⟩

/-- A network serving a disclosure list that never contains the manifest URL. -/
def netOther : String → Nat → NetOutcome :=
  fun _ _ => .response 200 (strBytes "https://elsewhere") true

/-- A single-attempt crawler decoding to `mProv` over `netOther`. -/
def crawlProv : Crawl :=
  ⟨⟨"portal", 2, 5, 1, 300⟩, validateTriv, fun _ => (mProv, none), netOther⟩

/-- The manifest `mProv` as stamped by the pipeline. -/
def mProvStamped : Manifest := { mProv with url := "https://m", body := [] }

theorem parseManifest_document_order_witness :
    (∃ k, k ≤ (docOrder mProvStamped).length ∧
      (ParseManifest crawlProv [] "https://m" true).checked =
        (docOrder mProvStamped).take k ∧
      (ParseManifest crawlProv [] "https://m" true).fetched =
        ((docOrder mProvStamped).take k).flatMap
          (fun u => (CheckProvenance crawlProv u "https://m").2) ∧
      (∀ j, j + 1 < k → ∀ u, (docOrder mProvStamped)[j]? = some u →
        (CheckProvenance crawlProv u "https://m").1 = none) ∧
      (∀ e, (ParseManifest crawlProv [] "https://m" true).err = some e →
        1 ≤ k ∧ ∃ u, (docOrder mProvStamped)[k - 1]? = some u ∧
          (CheckProvenance crawlProv u "https://m").1 = some e) ∧
      ((ParseManifest crawlProv [] "https://m" true).err = none →
        k = (docOrder mProvStamped).length ∧
        ∀ u ∈ docOrder mProvStamped,
          (CheckProvenance crawlProv u "https://m").1 = none)) ∧
    (ParseManifest crawlProv [] "https://m" true).checked =
      [⟨"https://e", "https://e/.wk"⟩] ∧
    (ParseManifest crawlProv [] "https://m" true).fetched = ["https://e/.wk"] ∧
    (ParseManifest crawlProv [] "https://m" true).err =
      some (.notFound "https://m") :=
  ⟨parseManifest_document_order crawlProv [] "https://m" mProv mProvStamped rfl rfl,
   by decide, by decide, by decide⟩
